import Mathlib

/-!
Verification model of the information-extraction and company-matching core of
the company-match pipeline (`chamber_document_analyzer.py` and the direct
classifier of `company_intelligence_scraper.py`).

Python strings are modelled as `List Char` over the ASCII fragment that the
analyzed documents use: the character-class predicates (`\s`, `\w`, upper/lower
casing) are the ASCII restrictions of Python's Unicode-aware versions, which
coincide with Python's behaviour on all ASCII text.

Python floats are modelled as exact fractions (`Frac` below).  Every float that
the scraper computes is of the form `min(k / d, 1.0)` for small integers `k`
with `d ∈ {4, 40, 10}` and the only comparisons performed are against `0.08`
and between such values; all of these comparisons are decided identically by
IEEE doubles and by exact rationals (the distances involved are far larger than
any double rounding error), so the exact-fraction model is faithful.
-/

set_option maxRecDepth 40000

/-- Python `str` restricted to the ASCII fragment: a list of characters. -/
abbrev Str := List Char

/-- Coerce a Lean string literal into the model. -/
def strL (s : String) : Str := s.data

/-- Python regex `\s` (and `str.strip` / `str.split` whitespace) on ASCII:
space, tab, newline, carriage return, vertical tab, form feed. -/
def pyIsSpace (c : Char) : Bool :=
  c == ' ' || c == '\t' || c == '\n' || c == '\r' || c == (Char.ofNat 11) || c == (Char.ofNat 12)

/-- Python regex `\w` on ASCII: letters, digits, underscore. -/
def isWordChar (c : Char) : Bool :=
  c.isAlpha || c.isDigit || c == '_'

/-- The punctuation whitelist of `preprocess_content`: dot, comma, semicolon,
colon, parentheses, hyphen, slash. -/
def allowedPunct (c : Char) : Bool :=
  c == '.' || c == ',' || c == ';' || c == ':' || c == '(' || c == ')' || c == '-' || c == '/'

/-- Characters kept by the special-character removal of `preprocess_content`
(a `re.sub` whose negated class deletes everything that is not `\w`, `\s` or
whitelisted punctuation). -/
def keepChar (c : Char) : Bool :=
  isWordChar c || pyIsSpace c || allowedPunct c

/-- Python `str.lower` on ASCII. -/
def pyLower (c : Char) : Char := c.toLower

/-- Python `str.upper` on ASCII. -/
def pyUpper (c : Char) : Char := c.toUpper

/-- `text.lower()`. -/
def lowerStr (s : Str) : Str := s.map pyLower

/-- `text.upper()`. -/
def upperStr (s : Str) : Str := s.map pyUpper

/-- Worker for `collapse_ws`; the flag records whether the previous character
belonged to a whitespace run that has already emitted its single space. -/
def collapseAux : Bool → Str → Str
  | _, [] => []
  | prevSp, c :: cs =>
    if pyIsSpace c then
      if prevSp then collapseAux true cs
      else ' ' :: collapseAux true cs
    else c :: collapseAux false cs

/-- `re.sub(r"\s+", " ", text)`: every maximal whitespace run is replaced by a
single space (first character of the run emits the space, the rest are
dropped). -/
def collapse_ws (s : Str) : Str := collapseAux false s

/-- The text cleanup of `preprocess_content` (lines 253-255 of
`chamber_document_analyzer.py`): collapse whitespace runs, then delete every
character outside the whitelist. -/
def normalize_text (s : Str) : Str := (collapse_ws s).filter keepChar

/-- Python `text.split("\n")` (always returns at least one segment, keeps
empty segments). -/
def splitNl : Str → List Str
  | [] => [[]]
  | c :: cs =>
    match splitNl cs with
    | [] => if c == '\n' then [[], []] else [[c]]
    | h :: t => if c == '\n' then [] :: h :: t else (c :: h) :: t

/-- Python `"\n".join(lines)`. -/
def joinNl : List Str → Str
  | [] => []
  | [l] => l
  | l :: ls => l ++ '\n' :: joinNl ls

/-- Is the first list a prefix of the second (decision procedure)? -/
def isPrefixList : Str → Str → Bool
  | [], _ => true
  | _ :: _, [] => false
  | a :: as, b :: bs => a == b && isPrefixList as bs

/-- Python `needle in hay` for strings: substring containment (the empty
string is contained in everything). -/
def containsSub (needle : Str) : Str → Bool
  | [] => isPrefixList needle []
  | c :: cs => isPrefixList needle (c :: cs) || containsSub needle cs

/-- Worker for `countOcc` (fuel-driven so that it is structurally recursive;
`countOcc` always supplies sufficient fuel). -/
def countOccAux (pat : Str) : Nat → Str → Nat
  | 0, _ => 0
  | f + 1, hay =>
    if isPrefixList pat hay then
      1 + countOccAux pat f (hay.drop (max 1 pat.length))
    else
      match hay with
      | [] => 0
      | _ :: t => countOccAux pat f t

/-- Python `hay.count(pat)`: number of non-overlapping occurrences, scanning
left to right (the empty pattern counts `len(hay) + 1` times, as in Python). -/
def countOcc (pat hay : Str) : Nat := countOccAux pat (hay.length + 1) hay

/-- Python `str.strip()`: drop leading and trailing whitespace. -/
def trimStr (s : Str) : Str :=
  ((s.dropWhile pyIsSpace).reverse.dropWhile pyIsSpace).reverse

/-- The `seen`-set deduplication loop used verbatim in
`_extract_sections_by_keywords`, `match_company` and (as `dict.fromkeys`) the
certification cleanup: keep an element iff it was not seen before. -/
def pydedupAux : List Str → List Str → List Str
  | _, [] => []
  | seen, x :: xs =>
    if x ∈ seen then pydedupAux seen xs
    else x :: pydedupAux (x :: seen) xs

/-- Deduplicate preserving first occurrences (`seen = set(); unique = []`
loop / `list(dict.fromkeys(...))`). -/
def pydedup (l : List Str) : List Str := pydedupAux [] l

/-- Specification-side deduplication, modelled from the spec's words: keep
each string at its first occurrence and drop every later duplicate. -/
def firstOccurSpec : List Str → List Str
  | [] => []
  | x :: xs => x :: firstOccurSpec (xs.filter (fun y => y ≠ x))
termination_by l => l.length
decreasing_by
  simp only [List.length_cons]
  exact Nat.lt_succ_of_le (List.length_filter_le _ _)

/-- Python `dict` lookup on an insertion-ordered association list. -/
def lookupD {α : Type} (m : List (Str × α)) (k : Str) : Option α :=
  match m with
  | [] => none
  | (k', v) :: t => if k' = k then some v else lookupD t k

/-- Python `dict` assignment `d[k] = v` on an insertion-ordered association
list: overwrite in place if the key exists, else append. -/
def dictInsert {α : Type} (m : List (Str × α)) (k : Str) (v : α) : List (Str × α) :=
  match m with
  | [] => [(k, v)]
  | (k', v') :: t => if k' = k then (k, v) :: t else (k', v') :: dictInsert t k v

/-- Python `row.get(key, default)` for CSV rows. -/
def rowGetD (row : List (Str × Str)) (k dflt : Str) : Str :=
  match lookupD row k with
  | some v => v
  | none => dflt

/-- Worker for `wordTokens`: accumulate the current (reversed) run of word
characters. -/
def wordTokensAux (cur : Str) : Str → List Str
  | [] => if cur = [] then [] else [cur.reverse]
  | c :: cs =>
    if isWordChar c then wordTokensAux (c :: cur) cs
    else if cur = [] then wordTokensAux [] cs
    else cur.reverse :: wordTokensAux [] cs

/-- Python `re.findall(r"\b\w+\b", text)` on ASCII text: the maximal runs of
word characters. -/
def wordTokens (s : Str) : List Str := wordTokensAux [] s

/-- Decimal digits of a natural number (fuel-driven, kernel computable). -/
def natDigits : Nat → Nat → Str
  | 0, _ => []
  | f + 1, n =>
    if n < 10 then [Char.ofNat (48 + n)]
    else natDigits f (n / 10) ++ [Char.ofNat (48 + n % 10)]

/-- Decimal rendering of a natural number (for the f-string evidence text). -/
def natToStr (n : Nat) : Str := natDigits (n + 1) n

/-- Python's `enumerate`, starting at index `i`. -/
def enumFromN {α : Type} (i : Nat) : List α → List (Nat × α)
  | [] => []
  | a :: l => (i, a) :: enumFromN (i + 1) l

/-- Exact-fraction model of the (nonnegative) Python floats computed by the
classifier.  No normalization is performed, so all operations are plain `Nat`
arithmetic; `Frac.toRat` interprets a fraction as the rational it denotes. -/
structure Frac where
  num : Nat
  den : Nat
deriving DecidableEq, Repr

/-- The float denoted by an integer literal. -/
def Frac.ofNat (n : Nat) : Frac := ⟨n, 1⟩

/-- Float division (both operands nonnegative in every use). -/
def Frac.div (a b : Frac) : Frac := ⟨a.num * b.den, a.den * b.num⟩

/-- Float multiplication. -/
def Frac.mul (a b : Frac) : Frac := ⟨a.num * b.num, a.den * b.den⟩

/-- Float `<=`, by cross multiplication (exact for the values in play). -/
def Frac.ble (a b : Frac) : Bool := a.num * b.den ≤ b.num * a.den

/-- Python `min` on floats. -/
def Frac.minF (a b : Frac) : Frac := if Frac.ble a b then a else b

/-- The rational denoted by a fraction. -/
def Frac.toRat (a : Frac) : ℚ := (a.num : ℚ) / (a.den : ℚ)

/-- The float literal `0.25` of the classifier. -/
def f025 : Frac := ⟨25, 100⟩

/-- The float literal `0.08` (classifier output threshold). -/
def f008 : Frac := ⟨8, 100⟩

/-- The float literal `40.0` (confidence saturation divisor). -/
def f40 : Frac := ⟨40, 1⟩

/-- `min(score / 40.0, 1.0)`: the normalized confidence of a category. -/
def confOfScore (score : Nat) : Frac :=
  Frac.minF (Frac.div (Frac.ofNat score) f40) (Frac.ofNat 1)

/-- Abstract syntax of the regular-expression fragment used by the analyzer:
character classes (as decidable predicates), concatenation, alternation,
greedy and lazy star, and a single capture group.  Literals and all counted
quantifiers are built from these by the constructors below. -/
inductive RE where
  | eps : RE
  | cls : (Char → Bool) → RE
  | seq : RE → RE → RE
  | alt : RE → RE → RE
  | starG : RE → RE
  | starL : RE → RE
  | group : RE → RE

/-- Does the pattern contain a capture group?  (`re.findall` returns group
contents when a group is present and whole matches otherwise.) -/
def RE.hasGroup : RE → Bool
  | .eps => false
  | .cls _ => false
  | .seq a b => a.hasGroup || b.hasGroup
  | .alt a b => a.hasGroup || b.hasGroup
  | .starG a => a.hasGroup
  | .starL a => a.hasGroup
  | .group _ => true

/-- Size of a pattern, used to pick a sufficient fuel for the matcher. -/
def RE.size : RE → Nat
  | .eps => 1
  | .cls _ => 1
  | .seq a b => a.size + b.size + 1
  | .alt a b => a.size + b.size + 1
  | .starG a => a.size + 1
  | .starL a => a.size + 1
  | .group a => a.size + 1

/-- Keep the first capture if there is one (a pattern has at most one group). -/
def mergeCap (a b : Option Str) : Option Str :=
  match a with
  | some x => some x
  | none => b

/-- Backtracking matcher.  `reMatchF fuel re s` returns every way `re` can
match a prefix of `s`, as `(capture, rest)` pairs listed in the engine's
backtracking priority order (so the head is the match Python's engine picks):
alternation prefers the left branch, the greedy star prefers one more
iteration, the lazy star prefers stopping.  Star bodies must consume input,
which every starred subpattern of the analyzer does.  The fuel only forces
structural recursion; `reFuel` below always supplies enough. -/
def reMatchF : Nat → RE → Str → List (Option Str × Str)
  | 0, _, _ => []
  | f + 1, re, s =>
    match re with
    | .eps => [(none, s)]
    | .cls p =>
      match s with
      | [] => []
      | c :: cs => if p c then [(none, cs)] else []
    | .seq a b =>
      (reMatchF f a s).flatMap fun pr =>
        (reMatchF f b pr.2).map fun pr2 => (mergeCap pr.1 pr2.1, pr2.2)
    | .alt a b => reMatchF f a s ++ reMatchF f b s
    | .starG a =>
      ((reMatchF f a s).flatMap fun pr =>
        if pr.2.length < s.length then
          (reMatchF f (.starG a) pr.2).map fun pr2 => (mergeCap pr.1 pr2.1, pr2.2)
        else []) ++ [(none, s)]
    | .starL a =>
      (none, s) :: ((reMatchF f a s).flatMap fun pr =>
        if pr.2.length < s.length then
          (reMatchF f (.starL a) pr.2).map fun pr2 => (mergeCap pr.1 pr2.1, pr2.2)
        else [])
    | .group a =>
      (reMatchF f a s).map fun pr => (some (s.take (s.length - pr.2.length)), pr.2)

/-- A fuel that is always sufficient for `reMatchF` (each nesting level of the
star can consume at most the remaining input). -/
def reFuel (re : RE) (s : Str) : Nat := (s.length + 2) * (re.size + 2)

/-- The match attempt Python's engine makes at the start of `s`: the
highest-priority result of the backtracking matcher, if any. -/
def reFirst (re : RE) (s : Str) : Option (Option Str × Str) :=
  (reMatchF (reFuel re s) re s).head?

/-- Worker for `reFindall`: scan left to right; on a match, emit the group
content (or the whole match when the pattern has no group) and resume after
the match (advancing one character after an empty match, as Python does); on
a failure, advance one character. -/
def findallAux (re : RE) : Nat → Str → List Str
  | 0, _ => []
  | f + 1, s =>
    match reFirst re s with
    | some pr =>
      let matched := s.take (s.length - pr.2.length)
      let res := if re.hasGroup then pr.1.getD [] else matched
      if pr.2.length < s.length then res :: findallAux re f pr.2
      else
        res :: (match s with
          | [] => []
          | _ :: t => findallAux re f t)
    | none =>
      match s with
      | [] => []
      | _ :: t => findallAux re f t

/-- Python `re.findall(pattern, s)` for patterns with at most one group:
the list of group captures (or whole matches) of the non-overlapping,
leftmost matches. -/
def reFindall (re : RE) (s : Str) : List Str := findallAux re (s.length + 1) s

/-- A case-sensitive single-character literal. -/
def exChar (c : Char) : RE := .cls (fun x => x == c)

/-- A case-insensitive single-character literal (`re.IGNORECASE`, ASCII). -/
def ciChar (c : Char) : RE := .cls (fun x => pyLower x == pyLower c)

/-- Concatenation of a list of patterns. -/
def reCat : List RE → RE
  | [] => .eps
  | r :: rs => .seq r (reCat rs)

/-- A case-sensitive string literal. -/
def cLit (t : String) : RE := reCat (t.data.map exChar)

/-- A case-insensitive string literal. -/
def ciLit (t : String) : RE := reCat (t.data.map ciChar)

/-- `a{n}`: exactly `n` repetitions. -/
def reRep (n : Nat) (a : RE) : RE := reCat (List.replicate n a)

/-- At most `k` further repetitions, greedily. -/
def reUpTo : Nat → RE → RE
  | 0, _ => .eps
  | k + 1, a => .alt (.seq a (reUpTo k a)) .eps

/-- `a{m,n}`: between `m` and `n` repetitions, greedily. -/
def reRange (m n : Nat) (a : RE) : RE := .seq (reRep m a) (reUpTo (n - m) a)

/-- `a+`: one or more repetitions, greedily. -/
def rePlus (a : RE) : RE := .seq a (.starG a)

/-- Class `[0-9]` (also `\d`). -/
def clsDigit (c : Char) : Bool := c.isDigit

/-- Class `[:\s]`. -/
def clsColonWs (c : Char) : Bool := c == ':' || pyIsSpace c

/-- Class `[0-9/]`. -/
def clsDigitSlash (c : Char) : Bool := c.isDigit || c == '/'

/-- Class of degree sign, dot and whitespace (the certificate-number and
attestation-number separator class). -/
def clsDegDotWs (c : Char) : Bool := c == '°' || c == '.' || pyIsSpace c

/-- The certificate-number class `C`, `0-9`, hyphen, `R` under
`re.IGNORECASE`: it admits only the letters `c`/`C` and `r`/`R`. -/
def clsCertNum (c : Char) : Bool :=
  pyLower c == 'c' || c.isDigit || c == '-' || pyLower c == 'r'

/-- Negated class: anything but a dot or a newline. -/
def clsNotDotNl (c : Char) : Bool := !(c == '.' || c == '\n')

/-- Class `[A-Z]` (or `[a-z]`) under `re.IGNORECASE` on ASCII: any letter. -/
def clsLetter (c : Char) : Bool := c.isAlpha

/-- Class `[ivx]` under `re.IGNORECASE`. -/
def clsIvx (c : Char) : Bool := pyLower c == 'i' || pyLower c == 'v' || pyLower c == 'x'

/-- Class `[A-Z0-9/]` under `re.IGNORECASE`. -/
def clsLetterDigitSlash (c : Char) : Bool := c.isAlpha || c.isDigit || c == '/'

/-- The `.` metacharacter (no DOTALL): anything but a newline. -/
def clsDot (c : Char) : Bool := !(c == '\n')

/-- Class `\s`. -/
def clsWs (c : Char) : Bool := pyIsSpace c

/-- Class of digit, dot, comma (the amount class of the SOA category rows). -/
def clsDigitDotComma (c : Char) : Bool := c.isDigit || c == '.' || c == ','

/-- Pattern scheme `LABEL[:\s]*([0-9]{11})` (case-sensitive; the tax-code
patterns are applied to lowercased text without `re.IGNORECASE`). -/
def labeled11 (lbl : String) : RE :=
  .seq (cLit lbl) (.seq (.starG (.cls clsColonWs)) (.group (reRep 11 (.cls clsDigit))))

/-- The four labelled tax-code/VAT patterns of `match_company`. -/
def tax_code_patterns : List RE :=
  [labeled11 ("codice fiscale"), labeled11 ("partita iva"),
   labeled11 ("c.f."), labeled11 ("p.iva")]

/-- Pattern scheme for declared names: `LABEL[:\s]*([A-Z][^.\n]{5,80})` with
`re.IGNORECASE`. -/
def namePat (lbl : String) : RE :=
  .seq (ciLit lbl) (.seq (.starG (.cls clsColonWs))
    (.group (.seq (.cls clsLetter) (reRange 5 80 (.cls clsNotDotNl)))))

/-- The three declared-name patterns of `match_company`. -/
def name_patterns : List RE :=
  [namePat ("denominazione"), namePat ("ragione sociale"), namePat ("impresa")]

/-- Pattern scheme `LABEL[:\s]*([0-9/]+)` with `re.IGNORECASE`. -/
def labeledDS (lbl : String) : RE :=
  .seq (ciLit lbl) (.seq (.starG (.cls clsColonWs)) (.group (rePlus (.cls clsDigitSlash))))

/-- Pattern scheme `LABEL[:\s]*([0-9]{11})` with `re.IGNORECASE`. -/
def ciLabeled11 (lbl : String) : RE :=
  .seq (ciLit lbl) (.seq (.starG (.cls clsColonWs)) (.group (reRep 11 (.cls clsDigit))))

/-- The attestation-number pattern: `attestazione`, separator, `n`, the
degree/dot/space class, then a captured digit-or-slash run. -/
def patAttestazioneN : RE :=
  .seq (ciLit ("attestazione")) (.seq (.starG (.cls clsColonWs))
    (.seq (ciChar 'n') (.seq (.starG (.cls clsDegDotWs)) (.group (rePlus (.cls clsDigitSlash))))))

/-- The SOA category row pattern: `og` (resp. `os`), digits, a lazy gap,
`classe`, whitespace, roman digits, a lazy gap, the euro sign, whitespace and
an amount (no capture group: whole matches are collected). -/
def patCategoryRow (lbl : String) : RE :=
  .seq (ciLit lbl) (.seq (rePlus (.cls clsDigit)) (.seq (.starL (.cls clsDot))
    (.seq (ciLit ("classe")) (.seq (rePlus (.cls clsWs)) (.seq (rePlus (.cls clsIvx))
      (.seq (.starL (.cls clsDot)) (.seq (exChar '€')
        (.seq (.starG (.cls clsWs)) (rePlus (.cls clsDigitDotComma))))))))))

/-- `soa_patterns` of `extract_certifications_direct`. -/
def soa_patterns : List RE :=
  [ciLabeled11 ("codice soa"), labeledDS ("numero attestazione"), patAttestazioneN,
   labeledDS ("rilasciata il"), labeledDS ("scadenza"),
   patCategoryRow ("og"), patCategoryRow ("os")]

/-- The certificate-number pattern shared by the quality, environmental and
safety buckets: `certificato n`, separators, then a captured run over the
(restrictive) certificate-number class. -/
def patCertificatoN : RE :=
  .seq (ciLit ("certificato n")) (.seq (.starG (.cls clsDegDotWs)) (.group (rePlus (.cls clsCertNum))))

/-- The issuing-body pattern `emesso da[:\s]*` with a captured 10-80 character
run that stops at dots and newlines. -/
def patEmessoDa : RE :=
  .seq (ciLit ("emesso da")) (.seq (.starG (.cls clsColonWs)) (.group (reRange 10 80 (.cls clsNotDotNl))))

/-- The first-issue-date pattern. -/
def patDataPrima : RE := labeledDS ("data prima emissione")

/-- The ISO-9001 norm pattern: the year is the capture group. -/
def patIso9001 : RE := .seq (ciLit ("uni en iso 9001:")) (.group (reRep 4 (.cls clsDigit)))

/-- The sector pattern: captured digits, dash, free text. -/
def patSettore : RE :=
  .seq (ciLit ("settore")) (.seq (.starG (.cls clsColonWs))
    (.group (.seq (rePlus (.cls clsDigit)) (.seq (.starG (.cls clsWs))
      (.seq (exChar '-') (.seq (.starG (.cls clsWs)) (rePlus (.cls clsNotDotNl))))))))

/-- `quality_patterns` of `extract_certifications_direct`. -/
def quality_patterns : List RE :=
  [patIso9001, patCertificatoN, patEmessoDa, patDataPrima, patSettore]

/-- The ISO-14001 norm pattern: the year is the capture group. -/
def patIso14001 : RE := .seq (ciLit ("uni en iso 14001:")) (.group (reRep 4 (.cls clsDigit)))

/-- `env_patterns` of `extract_certifications_direct` (the second entry has no
group, so whole matches are collected). -/
def env_patterns : List RE :=
  [patIso14001, ciLit ("sistema di gestione ambientale"),
   patCertificatoN, patEmessoDa, patDataPrima]

/-- The ISO-45001 norm pattern. -/
def patIso45001 : RE := .seq (ciLit ("uni iso 45001:")) (.group (reRep 4 (.cls clsDigit)))

/-- The OHSAS-18001 norm pattern. -/
def patOhsas18001 : RE := .seq (ciLit ("ohsas 18001:")) (.group (reRep 4 (.cls clsDigit)))

/-- `safety_patterns` of `extract_certifications_direct`. -/
def safety_patterns : List RE :=
  [patIso45001, patOhsas18001, ciLit ("salute e sicurezza sul lavoro"),
   patCertificatoN, patEmessoDa, patDataPrima]

/-- The registration-number pattern of the Albo bucket. -/
def patNumeroIscrizione : RE :=
  .seq (ciLit ("numero iscrizione")) (.seq (.starG (.cls clsColonWs))
    (.group (rePlus (.cls clsLetterDigitSlash))))

/-- Pattern scheme `LABEL[:\s]*([^.\n]+)`. -/
def labeledFree (lbl : String) : RE :=
  .seq (ciLit lbl) (.seq (.starG (.cls clsColonWs)) (.group (rePlus (.cls clsNotDotNl))))

/-- `env_reg_patterns` of `extract_certifications_direct`. -/
def env_reg_patterns : List RE :=
  [ciLit ("albo nazionale gestori ambientali"), patNumeroIscrizione,
   labeledFree ("sezione"), labeledFree ("categoria"), labeledDS ("scadenza")]

/-- The installer-authorization letter pattern: `lettera `, one letter,
separators, then captured free text. -/
def patLettera : RE :=
  .seq (ciLit ("lettera ")) (.seq (.cls clsLetter)
    (.seq (.starG (.cls clsColonWs)) (.group (rePlus (.cls clsNotDotNl)))))

/-- The provincial-law reference pattern (no group). -/
def patLpBz : RE :=
  .seq (ciLit ("l.p.")) (.seq (.starG (.cls clsWs)) (.seq (ciLit ("bz")) (.starG (.cls clsNotDotNl))))

/-- The electrical-installations pattern (no group). -/
def patImpiantiElettrici : RE := .seq (ciLit ("impianti elettrici")) (.starG (.cls clsNotDotNl))

/-- The radio/TV-installations pattern (no group). -/
def patImpiantiRadio : RE := .seq (ciLit ("impianti radiotelevisivi")) (.starG (.cls clsNotDotNl))

/-- `tech_auth_patterns` of `extract_certifications_direct`. -/
def tech_auth_patterns : List RE :=
  [patLettera, ciLit ("abilitazioni impiantistiche"), patLpBz,
   patImpiantiElettrici, patImpiantiRadio]

/-- Python slice `lines[max(0, i - back) : min(len(lines), i + fwd)]`, the
context window every extraction pass opens around a trigger line (truncated
`Nat` subtraction realizes the `max(0, ...)` clamp). -/
def contextSlice (lines : List Str) (i back fwd : Nat) : List Str :=
  (lines.drop (i - back)).take (min lines.length (i + fwd) - (i - back))

/-- Does any keyword occur in the (already lowercased) line? -/
def anyKeyword (keywords : List Str) (lineLower : Str) : Bool :=
  keywords.any fun k => containsSub k lineLower

/-- One keyword-triggered extraction pass of `extract_certifications_direct`:
scan all lines; on a trigger hit at line `i` join the context window
`[i - back, i + fwd)` and run every pattern over it, keeping stripped matches
that are nonempty and longer than `minLen` (`minLen = 3` for the SOA pass,
which additionally requires `len(match.strip()) > 3`; `0` for the others). -/
def certPass (lines : List Str) (trigger : Str → Bool) (patterns : List RE)
    (back fwd minLen : Nat) : List Str :=
  (enumFromN 0 lines).flatMap fun p =>
    if trigger (lowerStr p.2) then
      patterns.flatMap fun pat =>
        (reFindall pat (joinNl (contextSlice lines p.1 back fwd))).filterMap fun m =>
          let t := trimStr m
          if t ≠ [] ∧ minLen < t.length then some t else none
    else []

/-- Trigger keywords of the SOA pass. -/
def soaTriggers : List Str := [strL ("attestazione soa"), strL ("codice soa"), strL ("categorie")]

/-- Trigger keywords of the quality pass. -/
def qualityTriggers : List Str := [strL ("iso 9001"), strL ("qualità"), strL ("quality")]

/-- Trigger keywords of the environmental pass. -/
def envTriggers : List Str := [strL ("iso 14001"), strL ("ambientale"), strL ("environmental")]

/-- Trigger keywords of the safety pass. -/
def safetyTriggers : List Str := [strL ("45001"), strL ("18001"), strL ("sicurezza"), strL ("safety")]

/-- Trigger of the environmental-registration pass: the line must contain both
`albo` and `gestori`. -/
def alboTrigger (lineLower : Str) : Bool :=
  containsSub (strL ("albo")) lineLower && containsSub (strL ("gestori")) lineLower

/-- Trigger keywords of the technical-authorization pass. -/
def techAuthTriggers : List Str :=
  [strL ("abilitazioni"), strL ("lettera a"), strL ("lettera b"), strL ("impiantistiche")]

/-- The seven certification buckets of `extract_certifications_direct`. -/
structure Certifications where
  soa_attestations : List Str
  quality_certifications : List Str
  environmental_certifications : List Str
  safety_certifications : List Str
  environmental_registrations : List Str
  technical_authorizations : List Str
  other_certifications : List Str
deriving DecidableEq, Repr

/-- The buckets as accumulated by the six scanning passes, before the final
cleanup.  No pass ever appends to `other_certifications`. -/
def extract_certifications_raw (text : Str) : Certifications :=
  let lines := splitNl text
  { soa_attestations := certPass lines (anyKeyword soaTriggers) soa_patterns 3 10 3
    quality_certifications := certPass lines (anyKeyword qualityTriggers) quality_patterns 2 8 0
    environmental_certifications := certPass lines (anyKeyword envTriggers) env_patterns 2 8 0
    safety_certifications := certPass lines (anyKeyword safetyTriggers) safety_patterns 2 8 0
    environmental_registrations := certPass lines alboTrigger env_reg_patterns 1 6 0
    technical_authorizations := certPass lines (anyKeyword techAuthTriggers) tech_auth_patterns 1 4 0
    other_certifications := [] }

/-- The final cleanup applied to every bucket: drop blank entries, then
`list(dict.fromkeys(...))`. -/
def cleanupBucket (l : List Str) : List Str := pydedup (l.filter (fun c => trimStr c ≠ []))

/-- `extract_certifications_direct`: the six passes followed by the cleanup. -/
def extract_certifications_direct (text : Str) : Certifications :=
  let raw := extract_certifications_raw text
  { soa_attestations := cleanupBucket raw.soa_attestations
    quality_certifications := cleanupBucket raw.quality_certifications
    environmental_certifications := cleanupBucket raw.environmental_certifications
    safety_certifications := cleanupBucket raw.safety_certifications
    environmental_registrations := cleanupBucket raw.environmental_registrations
    technical_authorizations := cleanupBucket raw.technical_authorizations
    other_certifications := cleanupBucket raw.other_certifications }

/-- The seven buckets of a `Certifications` record, in declaration order. -/
def bucketsOf (c : Certifications) : List (List Str) :=
  [c.soa_attestations, c.quality_certifications, c.environmental_certifications,
   c.safety_certifications, c.environmental_registrations, c.technical_authorizations,
   c.other_certifications]

/-- `_extract_sections_by_keywords`: collect the `[i - k, i + k]` window (both
ends clamped to the text) around every line containing a keyword, then
deduplicate preserving order and join. -/
def extract_sections_by_keywords (text : Str) (keywords : List Str) (contextLines : Nat) : Str :=
  let lines := splitNl text
  let relevant := (enumFromN 0 lines).flatMap fun p =>
    if keywords.any (fun k => containsSub k (lowerStr p.2)) then
      contextSlice lines p.1 contextLines (contextLines + 1)
    else []
  joinNl (pydedup relevant)

/-- Page-break indicators of the first-page heuristic of `match_company`. -/
def pageBreakHit (l : Str) : Bool :=
  [strL ("pagina 2"), strL ("page 2"), strL ("pag. 2"), strL ("foglio 2")].any
    fun ind => containsSub ind (lowerStr l)

/-- First-page heuristic: keep lines until a page-break indicator after line
50, or line 150, whichever comes first. -/
def firstPageAux : Nat → List Str → List Str
  | _, [] => []
  | i, l :: ls =>
    if 50 < i && pageBreakHit l then []
    else if 150 ≤ i then []
    else l :: firstPageAux (i + 1) ls

/-- The estimated first-page content used by `match_company`. -/
def first_page_content (text : Str) : Str := joinNl (firstPageAux 0 (splitNl text))

/-- The declared-name exclusion list of `match_company` (boilerplate phrases
that the naive name regex also fires on). -/
def nameExclusions : List Str :=
  [strL ("del soggetto"), strL ("alla data"), strL ("denuncia"), strL ("progetto"),
   strL ("mediante"), strL ("organismo"), strL ("attestazione")]

/-- Clean a raw declared-name match (strip, collapse whitespace, uppercase)
and apply the false-positive suppression (length at least 5 and no excluded
phrase). -/
def cleanNameFilter (m : Str) : Option Str :=
  let clean := upperStr (collapse_ws (trimStr m))
  if 5 ≤ clean.length && !(nameExclusions.any fun e => containsSub e (lowerStr clean)) then
    some clean
  else none

/-- The identifier candidates of `match_company` in extraction order: the
labelled 11-digit matches on the lowercased first page, then the cleaned
declared-name matches, each in pattern order. -/
def raw_identifiers (text : Str) : List Str :=
  let fp := first_page_content text
  (tax_code_patterns.flatMap fun p => reFindall p (lowerStr fp)) ++
    (name_patterns.flatMap fun p => (reFindall p fp).filterMap cleanNameFilter)

/-- The deduplicated identifier candidates (first-seen order). -/
def unique_identifiers (text : Str) : List Str := pydedup (raw_identifiers text)

/-- The resolution loop of `match_company` (lines 455-465): return the
registry entry of the first candidate that is a key, `None` if none is. -/
def resolve_company {α : Type} (companies : List (Str × α)) : List Str → Option α
  | [] => none
  | c :: cs =>
    match lookupD companies c with
    | some r => some r
    | none => resolve_company companies cs

/-- Specification-side resolver, modelled from the spec's words: the registry
entry of the first candidate (in list order) that is an exact key of the
registry, `None` if no candidate is a key. -/
def resolveSpec {α : Type} (companies : List (Str × α)) (cands : List Str) : Option α :=
  (cands.find? fun c => (lookupD companies c).isSome).bind (lookupD companies)

/-- A CSV row (a Python dict of string fields). -/
abbrev Row := List (Str × Str)

/-- `match_company`: extract identifiers from the first page and resolve them
against the registry. -/
def match_company (companies : List (Str × Row)) (pdfText : Str) : Option Row :=
  resolve_company companies (unique_identifiers pdfText)

/-- Registry keying of `_load_companies_data` for a single row: index by
uppercased name, tax code, and VAT when distinct from the tax code. -/
def load_company_row (companies : List (Str × Row)) (row : Row) : List (Str × Row) :=
  let name := trimStr (rowGetD row (strL ("company_name")) [])
  let tax := trimStr (rowGetD row (strL ("tax_code")) [])
  let vat := trimStr (rowGetD row (strL ("vat_number")) [])
  let c1 := if name ≠ [] then dictInsert companies (upperStr name) row else companies
  let c2 := if tax ≠ [] then dictInsert c1 tax row else c1
  if vat ≠ [] ∧ vat ≠ tax then dictInsert c2 vat row else c2

/-- The in-memory registry built from the company rows. -/
def load_companies_data (rows : List Row) : List (Str × Row) :=
  rows.foldl load_company_row []

/-- The Italian/English stopword set of `_extract_key_terms`. -/
def commonWords : List Str :=
  [strL ("di"), strL ("e"), strL ("il"), strL ("la"), strL ("per"), strL ("con"),
   strL ("su"), strL ("in"), strL ("a"), strL ("da"), strL ("del"), strL ("della"),
   strL ("dei"), strL ("delle"), strL ("nel"), strL ("nella"), strL ("nei"),
   strL ("nelle"), strL ("and"), strL ("or"), strL ("the"), strL ("of"),
   strL ("to"), strL ("for"), strL ("with"), strL ("on"), strL ("at")]

/-- `_extract_key_terms`: word tokens of the lowercased text that are longer
than 3 characters and not stopwords. -/
def extract_key_terms (text : Str) : List Str :=
  (wordTokens (lowerStr text)).filter fun w => 3 < w.length && !(commonWords.contains w)

/-- A matched subcategory record of the classifier (`matchCount` models the
source's `matches` field, whose name is reserved in Lean). -/
structure SubcatMatch where
  name : Str
  matchCount : Nat
  confidence : Frac
deriving DecidableEq, Repr

/-- The per-category accumulator of `_analyze_content_direct`'s scoring loop. -/
structure CatAccum where
  score : Nat
  keywords : List Str
  subcats : List SubcatMatch
  evidence : List Str
deriving DecidableEq, Repr

/-- The evidence f-string for a matched subcategory. -/
def evidenceSubcat (sub : Str) (cnt : Nat) : Str :=
  (Char.ofNat 39 :: sub) ++ (Char.ofNat 39 :: strL (" mentioned ")) ++ natToStr cnt
    ++ strL (" times")

/-- The evidence f-string for a matched category name. -/
def evidenceCat (cat : Str) : Str :=
  strL ("Category name ") ++ (Char.ofNat 39 :: cat) ++ (Char.ofNat 39 :: strL (" found"))

/-- One subcategory step of the scoring loop: verbatim occurrences contribute
8 points each (and record a matched subcategory with confidence
`min(occurrences * 0.25, 1.0)`); each key-term hit contributes 3 points and is
appended to the keyword list if not already present. -/
def subcatStep (contentLower : Str) (acc : CatAccum) (sub : Str) : CatAccum :=
  let subLower := lowerStr sub
  let cnt := countOcc subLower contentLower
  let acc1 :=
    if 0 < cnt then
      { acc with
        score := acc.score + cnt * 8
        keywords := acc.keywords ++ [sub]
        subcats := acc.subcats ++
          [⟨sub, cnt, Frac.minF (Frac.mul (Frac.ofNat cnt) f025) (Frac.ofNat 1)⟩]
        evidence := acc.evidence ++ [evidenceSubcat sub cnt] }
    else acc
  (extract_key_terms subLower).foldl
    (fun a term =>
      if 3 < term.length && containsSub term contentLower then
        { a with
          score := a.score + 3
          keywords := if term ∈ a.keywords then a.keywords else a.keywords ++ [term] }
      else a)
    acc1

/-- The full scoring of one category: a 15-point bonus when the category name
occurs in the text, then the subcategory loop. -/
def categoryAccum (contentLower : Str) (cat : Str) (subs : List Str) : CatAccum :=
  let init : CatAccum :=
    if containsSub (lowerStr cat) contentLower then ⟨15, [cat], [], [evidenceCat cat]⟩
    else ⟨0, [], [], []⟩
  subs.foldl (subcatStep contentLower) init

/-- The stored per-category data of `category_scores`. -/
structure CatData where
  score : Nat
  confidence : Frac
  keywords : List Str
  subcategories : List SubcatMatch
  evidence : List Str
deriving DecidableEq, Repr

/-- `category_scores`: every category of the taxonomy with a positive score,
in taxonomy order, with its normalized confidence `min(score / 40.0, 1.0)`. -/
def category_scores (contentLower : Str) (taxonomy : List (Str × List Str)) :
    List (Str × CatData) :=
  taxonomy.filterMap fun p =>
    let acc := categoryAccum contentLower p.1 p.2
    if 0 < acc.score then
      some (p.1, ⟨acc.score, confOfScore acc.score, acc.keywords, acc.subcats, acc.evidence⟩)
    else none

/-- Stable insertion into a score-descending list (equal scores keep the
existing elements first, matching Python's stable `sorted`). -/
def insertScoreDesc (x : Str × CatData) : List (Str × CatData) → List (Str × CatData)
  | [] => [x]
  | y :: ys => if x.2.score < y.2.score then y :: insertScoreDesc x ys else x :: y :: ys

/-- `sorted(category_scores.items(), key=score, reverse=True)`: stable
descending sort by raw score. -/
def sortScoreDesc : List (Str × CatData) → List (Str × CatData)
  | [] => []
  | x :: xs => insertScoreDesc x (sortScoreDesc xs)

/-- The sorted category list of `_analyze_content_direct`. -/
def sorted_categories (contentLower : Str) (taxonomy : List (Str × List Str)) :
    List (Str × CatData) :=
  sortScoreDesc (category_scores contentLower taxonomy)

/-- One entry of the classifier's output `technologies` list. -/
structure TechEntry where
  category : Str
  confidence : Frac
  subcategories : List Str
  evidence : List Str
  keywords : List Str
deriving DecidableEq, Repr

/-- The output category list: the sorted categories whose confidence reaches
the 0.08 threshold, each rendered as a `TechEntry` (evidence truncated to 3,
keywords to 5). -/
def technologiesOf (contentLower : Str) (taxonomy : List (Str × List Str)) : List TechEntry :=
  ((sorted_categories contentLower taxonomy).filter fun p => Frac.ble f008 p.2.confidence).map
    fun p => ⟨p.1, p.2.confidence, p.2.subcategories.map SubcatMatch.name,
      p.2.evidence.take 3, p.2.keywords.take 5⟩

/-- The classifier fields of `_analyze_content_direct` that the taxonomy
scoring determines (`business_focus`, `technology_stack` and
`market_segments` come from the separate detector functions and are outside
the claims considered here). -/
structure DirectClassification where
  technologies : List TechEntry
  overall_confidence : Frac
  matched_keywords : List Str
deriving DecidableEq, Repr

/-- `_analyze_content_direct` (taxonomy part): lowercase the content, score
every category, sort by score, emit entries over the threshold; the overall
confidence is the top category's confidence (0.0 when nothing scored), and the
matched keywords are the deduplicated concatenation truncated to 20. -/
def analyze_content_direct (content : Str) (taxonomy : List (Str × List Str)) :
    DirectClassification :=
  let contentLower := lowerStr content
  let sorted := sorted_categories contentLower taxonomy
  { technologies := technologiesOf contentLower taxonomy
    overall_confidence :=
      match sorted.head? with
      | some p => p.2.confidence
      | none => Frac.ofNat 0
    matched_keywords := (pydedup (sorted.flatMap fun p => p.2.keywords)).take 20 }

/-- The per-document result record of `analyze_document` (the fields the
claims observe; the timestamp and the raw lengths are external / derived). -/
structure AnalysisResult where
  document_name : Str
  company_name : Str
  matched_company_data : Option Row
  analysis_status : Str
  direct_extraction : Certifications
  ai_analysis : Option Str
deriving DecidableEq, Repr

/-- The empty certification record (used for the failed-extraction branch,
whose Python dict simply lacks the extraction fields). -/
def emptyCertifications : Certifications := ⟨[], [], [], [], [], [], []⟩

/-- `analyze_document` on an already-extracted text (PDF extraction and the
model call are external collaborators; the latter's result is passed in as
`aiAnalysis`): empty text yields a `failed` record; otherwise the company is
matched (`Unknown` on no match) and the result is `completed`. -/
def analyze_document (companies : List (Str × Row)) (docName pdfText : Str)
    (aiAnalysis : Option Str) : AnalysisResult :=
  if pdfText = [] then
    ⟨docName, [], none, strL ("failed"), emptyCertifications, none⟩
  else
    let matched := match_company companies pdfText
    let companyName :=
      match matched with
      | some row => rowGetD row (strL ("company_name")) (strL ("Unknown"))
      | none => strL ("Unknown")
    ⟨docName, companyName, matched, strL ("completed"),
      extract_certifications_direct pdfText, aiAnalysis⟩

/-- Specification-side window, modelled from the claim's words: the lines
whose index lies in the inclusive interval `[i - back, i + fwd]`, clamped to
the text bounds. -/
def claimWindowLines (lines : List Str) (i back fwd : Nat) : List Str :=
  (enumFromN 0 lines).filterMap fun p =>
    if i - back ≤ p.1 ∧ p.1 ≤ i + fwd then some p.2 else none

/-- The end-to-end scenario text of the spec (tax code, declared name, an ISO
14001 line with a certificate number). -/
def exampleText2 : Str :=
  strL ("CODICE FISCALE: 01234567890\nDENOMINAZIONE: ROSSI COSTRUZIONI SRL\n...UNI EN ISO 14001:2015 certificato n. X9\n")

/-- The registry row of the end-to-end scenario. -/
def exampleRow2 : Row :=
  [(strL ("tax_code"), strL ("01234567890")), (strL ("company_name"), strL ("ROSSI COSTRUZIONI SRL"))]

/-- The registry of the end-to-end scenario, keyed as by `_load_companies_data`. -/
def exampleRegistry2 : List (Str × Row) := load_companies_data [exampleRow2]

/-- The taxonomy of the end-to-end scenario: category `environmental` with
subcategory `iso 14001`. -/
def exampleTaxonomy2 : List (Str × List Str) := [(strL ("environmental"), [strL ("iso 14001")])]

/-- The certification-dedup scenario text: the same ISO 9001 line twice. -/
def exampleText6 : Str :=
  strL ("UNI EN ISO 9001:2015 certificato n. ABC123\nUNI EN ISO 9001:2015 certificato n. ABC123")

/-- A text with an SOA trigger on line 0 and an attestation number on line 10:
it separates the code's window `[i-3, i+10)` from the claimed inclusive window
`[i-3, i+10]`. -/
def exampleText3 : Str :=
  strL ("attestazione soa\nx\nx\nx\nx\nx\nx\nx\nx\nx\nnumero attestazione: 123/456")

/-- An eight-line text whose only keyword hit is on the first line (window
clamping scenario). -/
def exampleText9 : Str := strL ("alpha keyword here\nl1\nl2\nl3\nl4\nl5\nl6\nl7")

/-- The no-match scenario text: a declared name that is in no registry. -/
def exampleText8 : Str := strL ("DENOMINAZIONE: ACME FANTASMA SRL")

/-- The resolver-precedence registry: name key and tax-code key map to the
same entry. -/
def exampleRegistryC1 : List (Str × Nat) := [(strL ("ACME SRL"), 1), (strL ("12345678901"), 1)]

/-- The resolver-precedence candidate list. -/
def exampleCandsC1 : List Str := [strL ("UNKNOWN"), strL ("12345678901"), strL ("ACME SRL")]

/-- The classifier-threshold witness taxonomy. -/
def exampleTaxonomy5 : List (Str × List Str) :=
  [(strL ("environmental"), [strL ("iso 14001")]), (strL ("quality"), [strL ("iso 9001")])]


theorem pydedupAux_cons_mem {seen : List Str} {x : Str} (xs : List Str) (h : x ∈ seen) :
    pydedupAux seen (x :: xs) = pydedupAux seen xs := by
  simp [pydedupAux, h]

theorem pydedupAux_cons_not_mem {seen : List Str} {x : Str} (xs : List Str) (h : x ∉ seen) :
    pydedupAux seen (x :: xs) = x :: pydedupAux (x :: seen) xs := by
  simp [pydedupAux, h]

theorem pydedupAux_sublist (l : List Str) : ∀ seen, List.Sublist (pydedupAux seen l) l := by
  induction l with
  | nil => intro seen; simp [pydedupAux]
  | cons x xs ih =>
    intro seen
    by_cases hx : x ∈ seen
    · rw [pydedupAux_cons_mem xs hx]
      exact (ih seen).trans (List.sublist_cons_self x xs)
    · rw [pydedupAux_cons_not_mem xs hx]
      exact List.Sublist.cons₂ x (ih (x :: seen))

theorem not_mem_seen_of_mem_pydedupAux {y : Str} (l : List Str) :
    ∀ seen, y ∈ pydedupAux seen l → y ∉ seen := by
  induction l with
  | nil => intro seen h; simp [pydedupAux] at h
  | cons x xs ih =>
    intro seen h
    by_cases hx : x ∈ seen
    · rw [pydedupAux_cons_mem xs hx] at h
      exact ih seen h
    · rw [pydedupAux_cons_not_mem xs hx] at h
      rcases List.mem_cons.mp h with rfl | h
      · exact hx
      · intro hy
        exact ih (x :: seen) h (List.mem_cons_of_mem x hy)

theorem pydedupAux_nodup (l : List Str) : ∀ seen, (pydedupAux seen l).Nodup := by
  induction l with
  | nil => intro seen; simp [pydedupAux]
  | cons x xs ih =>
    intro seen
    by_cases hx : x ∈ seen
    · rw [pydedupAux_cons_mem xs hx]; exact ih seen
    · rw [pydedupAux_cons_not_mem xs hx]
      refine List.nodup_cons.mpr ⟨fun hmem => ?_, ih (x :: seen)⟩
      exact not_mem_seen_of_mem_pydedupAux xs (x :: seen) hmem (List.mem_cons_self x seen)

theorem firstOccurSpec_cons (x : Str) (xs : List Str) :
    firstOccurSpec (x :: xs) = x :: firstOccurSpec (xs.filter (fun y => y ≠ x)) := by
  simp [firstOccurSpec]

theorem pydedupAux_eq_firstOccurSpec (l : List Str) :
    ∀ seen, pydedupAux seen l = firstOccurSpec (l.filter (fun y => y ∉ seen)) := by
  induction l with
  | nil => intro seen; simp [pydedupAux, firstOccurSpec]
  | cons x xs ih =>
    intro seen
    by_cases hx : x ∈ seen
    · have hf : (x :: xs).filter (fun y => y ∉ seen) = xs.filter (fun y => y ∉ seen) := by
        simp [List.filter_cons, hx]
      rw [pydedupAux_cons_mem xs hx, hf]
      exact ih seen
    · have hf : (x :: xs).filter (fun y => y ∉ seen) = x :: xs.filter (fun y => y ∉ seen) := by
        simp [List.filter_cons, hx]
      rw [pydedupAux_cons_not_mem xs hx, hf, firstOccurSpec_cons, ih (x :: seen),
        List.filter_filter]
      have hpred : ∀ y ∈ xs, (decide (y ≠ x) && decide (y ∉ seen)) = decide (y ∉ x :: seen) := by
        intro y _
        by_cases h1 : y = x
        · simp [h1, List.mem_cons]
        · by_cases h2 : y ∈ seen <;> simp [h1, h2, List.mem_cons]
      rw [List.filter_congr hpred]

theorem pydedup_eq_firstOccurSpec (l : List Str) : pydedup l = firstOccurSpec l := by
  rw [pydedup, pydedupAux_eq_firstOccurSpec l []]
  congr 1
  apply List.filter_eq_self.mpr
  intro a _
  simp

theorem pydedup_nodup (l : List Str) : (pydedup l).Nodup := pydedupAux_nodup l []

theorem pydedup_sublist (l : List Str) : List.Sublist (pydedup l) l := pydedupAux_sublist l []

theorem resolve_company_eq_resolveSpec {α : Type} (companies : List (Str × α)) :
    ∀ cands, resolve_company companies cands = resolveSpec companies cands := by
  intro cands
  induction cands with
  | nil => rfl
  | cons c cs ih =>
    show (match lookupD companies c with
      | some r => some r
      | none => resolve_company companies cs) = _
    cases h : lookupD companies c with
    | some r => simp [resolveSpec, List.find?_cons, h]
    | none =>
      rw [ih, resolveSpec, resolveSpec, List.find?_cons]
      simp [h]

theorem resolve_company_eq_none {α : Type} (companies : List (Str × α)) :
    ∀ cands, (∀ c ∈ cands, lookupD companies c = none) →
      resolve_company companies cands = none := by
  intro cands
  induction cands with
  | nil => intro _; rfl
  | cons c cs ih =>
    intro h
    show (match lookupD companies c with
      | some r => some r
      | none => resolve_company companies cs) = none
    rw [h c (List.mem_cons_self c cs)]
    exact ih fun d hd => h d (List.mem_cons_of_mem c hd)

theorem enumFromN_shift {α : Type} (l : List α) :
    ∀ k, enumFromN (k + 1) l = (enumFromN k l).map (fun p => (p.1 + 1, p.2)) := by
  induction l with
  | nil => intro k; rfl
  | cons a t ih =>
    intro k
    show (k + 1, a) :: enumFromN (k + 2) t = (k + 1, a) :: (enumFromN (k + 1) t).map _
    rw [ih (k + 1)]

theorem mem_enumFromN_lt {α : Type} (l : List α) :
    ∀ (k : Nat) (p : Nat × α), p ∈ enumFromN k l → p.1 < k + l.length := by
  induction l with
  | nil => intro k p h; simp [enumFromN] at h
  | cons a t ih =>
    intro k p h
    rcases List.mem_cons.mp h with rfl | h
    · simp
    · have := ih (k + 1) p h
      simp only [List.length_cons]
      omega

theorem sliceWindow (l : List Str) : ∀ s e : Nat,
    (l.drop s).take (e - s) =
      (enumFromN 0 l).filterMap (fun p => if s ≤ p.1 ∧ p.1 < e then some p.2 else none) := by
  induction l with
  | nil => intro s e; simp [enumFromN]
  | cons c t ih =>
    intro s e
    show (List.take (e - s) (List.drop s (c :: t))) =
      List.filterMap _ ((0, c) :: enumFromN 1 t)
    rw [List.filterMap_cons, enumFromN_shift t 0, List.filterMap_map]
    have htail : ∀ {s' e' : Nat},
        ((fun p : Nat × Str => if s' ≤ p.1 ∧ p.1 < e' then some p.2 else none) ∘
          (fun p : Nat × Str => (p.1 + 1, p.2)))
        = (fun p : Nat × Str => if s' - 1 ≤ p.1 ∧ p.1 < e' - 1 then some p.2 else none) := by
      intro s' e'
      funext p
      simp only [Function.comp_apply]
      exact if_congr (by omega) rfl rfl
    cases s with
    | zero =>
      cases e with
      | zero =>
        rw [if_neg (by omega), htail]
        have := ih 0 0
        simp only [Nat.sub_zero, Nat.sub_self, List.drop_zero, List.take_zero,
          Nat.zero_sub] at this ⊢
        exact this
      | succ e' =>
        rw [if_pos (by omega), htail]
        simp only [Nat.zero_sub, Nat.add_sub_cancel]
        rw [List.drop_zero, Nat.sub_zero, List.take_succ_cons]
        have := ih 0 e'
        rw [List.drop_zero, Nat.sub_zero] at this
        rw [← this]
    | succ s' =>
      rw [if_neg (by omega), htail]
      simp only [Nat.add_sub_cancel]
      rw [List.drop_succ_cons]
      cases e with
      | zero =>
        have := ih s' 0
        simp only [Nat.zero_sub, List.take_zero] at this ⊢
        exact this
      | succ e' =>
        rw [Nat.succ_sub_succ, Nat.add_sub_cancel]
        exact ih s' e'

theorem contextSlice_eq_claimWindow (lines : List Str) (i back f : Nat) :
    contextSlice lines i back (f + 1) = claimWindowLines lines i back f := by
  rw [contextSlice, claimWindowLines, sliceWindow]
  apply List.filterMap_congr
  intro p hp
  have hlt : p.1 < lines.length := by
    have := mem_enumFromN_lt lines 0 p hp
    omega
  exact if_congr (by omega) rfl rfl

theorem mem_collapseAux {c : Char} (s : Str) :
    ∀ b, c ∈ collapseAux b s → c ∈ s ∨ c = ' ' := by
  induction s with
  | nil => intro b h; simp [collapseAux] at h
  | cons d cs ih =>
    intro b h
    by_cases hd : pyIsSpace d
    · cases b with
      | true =>
        simp only [collapseAux, hd, if_true] at h
        rcases ih true h with h | h
        · exact Or.inl (List.mem_cons_of_mem d h)
        · exact Or.inr h
      | false =>
        simp only [collapseAux, hd, if_true, Bool.false_eq_true, if_false] at h
        rcases List.mem_cons.mp h with rfl | h
        · exact Or.inr rfl
        · rcases ih true h with h | h
          · exact Or.inl (List.mem_cons_of_mem d h)
          · exact Or.inr h
    · simp only [collapseAux, hd, Bool.false_eq_true, if_false] at h
      rcases List.mem_cons.mp h with rfl | h
      · exact Or.inl (List.mem_cons_self c cs)
      · rcases ih false h with h | h
        · exact Or.inl (List.mem_cons_of_mem d h)
        · exact Or.inr h

theorem collapseAux_idem (s : Str) : ∀ b, collapseAux b (collapseAux b s) = collapseAux b s := by
  induction s with
  | nil => intro b; rfl
  | cons c cs ih =>
    intro b
    by_cases hc : pyIsSpace c
    · cases b with
      | true =>
        simp only [collapseAux, hc, if_true]
        exact ih true
      | false =>
        simp only [collapseAux, hc, if_true, Bool.false_eq_true, if_false]
        have hsp : pyIsSpace ' ' = true := by decide
        simp only [collapseAux, hsp, if_true, Bool.false_eq_true, if_false]
        rw [ih true]
    · simp only [collapseAux, hc, Bool.false_eq_true, if_false]
      rw [ih false]

theorem collapse_ws_idem (s : Str) : collapse_ws (collapse_ws s) = collapse_ws s :=
  collapseAux_idem s false

theorem allKeep_collapse {s : Str} (h : ∀ c ∈ s, keepChar c = true) :
    ∀ c ∈ collapse_ws s, keepChar c = true := by
  intro c hc
  rcases mem_collapseAux s false hc with hm | hsp
  · exact h c hm
  · rw [hsp]; decide

theorem normalize_of_allKeep {s : Str} (h : ∀ c ∈ s, keepChar c = true) :
    normalize_text s = collapse_ws s := by
  rw [normalize_text]
  exact List.filter_eq_self.mpr (allKeep_collapse h)

theorem allKeep_normalize (s : Str) : ∀ c ∈ normalize_text s, keepChar c = true := by
  intro c hc
  exact List.of_mem_filter hc

theorem mem_insertScoreDesc {x z : Str × CatData} :
    ∀ {l}, z ∈ insertScoreDesc x l → z = x ∨ z ∈ l := by
  intro l
  induction l with
  | nil =>
    intro h
    rw [show insertScoreDesc x [] = [x] from rfl] at h
    exact Or.inl (List.mem_singleton.mp h)
  | cons y ys ih =>
    intro h
    by_cases hs : x.2.score < y.2.score
    · simp only [insertScoreDesc, hs, if_true] at h
      rcases List.mem_cons.mp h with rfl | h
      · exact Or.inr (List.mem_cons_self z ys)
      · rcases ih h with h | h
        · exact Or.inl h
        · exact Or.inr (List.mem_cons_of_mem y h)
    · simp only [insertScoreDesc, hs, if_false] at h
      rcases List.mem_cons.mp h with rfl | h
      · exact Or.inl rfl
      · exact Or.inr h

theorem pairwise_insertScoreDesc {x : Str × CatData} :
    ∀ {l}, l.Pairwise (fun a b => b.2.score ≤ a.2.score) →
      (insertScoreDesc x l).Pairwise (fun a b => b.2.score ≤ a.2.score) := by
  intro l
  induction l with
  | nil => intro _; simp [insertScoreDesc]
  | cons y ys ih =>
    intro h
    rcases List.pairwise_cons.mp h with ⟨hy, hys⟩
    by_cases hs : x.2.score < y.2.score
    · simp only [insertScoreDesc, hs, if_true]
      refine List.pairwise_cons.mpr ⟨?_, ih hys⟩
      intro z hz
      rcases mem_insertScoreDesc hz with rfl | hz
      · exact Nat.le_of_lt hs
      · exact hy z hz
    · simp only [insertScoreDesc, hs, if_false]
      refine List.pairwise_cons.mpr ⟨?_, h⟩
      intro z hz
      rcases List.mem_cons.mp hz with rfl | hz
      · omega
      · exact (hy z hz).trans (by omega)

theorem mem_sortScoreDesc {z : Str × CatData} :
    ∀ {l}, z ∈ sortScoreDesc l → z ∈ l := by
  intro l
  induction l with
  | nil => intro h; simp [sortScoreDesc] at h
  | cons x xs ih =>
    intro h
    rcases mem_insertScoreDesc h with rfl | h
    · exact List.mem_cons_self z xs
    · exact List.mem_cons_of_mem x (ih h)

theorem pairwise_sortScoreDesc (l : List (Str × CatData)) :
    (sortScoreDesc l).Pairwise (fun a b => b.2.score ≤ a.2.score) := by
  induction l with
  | nil => simp [sortScoreDesc]
  | cons x xs ih => exact pairwise_insertScoreDesc ih

theorem category_scores_mem {cl : Str} {tax : List (Str × List Str)} {cat : Str} {d : CatData}
    (h : (cat, d) ∈ category_scores cl tax) :
    d.confidence = confOfScore d.score ∧
      ∃ subs, (cat, subs) ∈ tax ∧ d.score = (categoryAccum cl cat subs).score := by
  rcases List.mem_filterMap.mp h with ⟨⟨pc, psubs⟩, hp, heq⟩
  dsimp only at heq
  by_cases hpos : 0 < (categoryAccum cl pc psubs).score
  · rw [if_pos hpos] at heq
    injection heq with heq
    injection heq with h1 h2
    subst h1
    subst h2
    exact ⟨rfl, psubs, hp, rfl⟩
  · rw [if_neg hpos] at heq
    cases heq

theorem keyNodup_eq {tax : List (Str × List Str)} (hk : (tax.map Prod.fst).Nodup) :
    ∀ {cat : Str} {a b : List Str}, (cat, a) ∈ tax → (cat, b) ∈ tax → a = b := by
  induction tax with
  | nil => intro cat a b ha _; cases ha
  | cons p t ih =>
    intro cat a b ha hb
    rw [List.map_cons] at hk
    rcases List.nodup_cons.mp hk with ⟨hp, ht⟩
    rcases List.mem_cons.mp ha with rfl | ha2
    · rcases List.mem_cons.mp hb with hb2 | hb2
      · injection hb2 with hb3 hb4
        exact hb4.symm
      · have h1 : cat ∈ List.map Prod.fst t := List.mem_map.mpr ⟨(cat, b), hb2, rfl⟩
        have h2 : cat ∉ List.map Prod.fst t := hp
        exact absurd h1 h2
    · rcases List.mem_cons.mp hb with rfl | hb2
      · have h1 : cat ∈ List.map Prod.fst t := List.mem_map.mpr ⟨(cat, a), ha2, rfl⟩
        have h2 : cat ∉ List.map Prod.fst t := hp
        exact absurd h1 h2
      · exact ih ht ha2 hb2

theorem Frac.le_toRat_of_ble {a b : Frac} (ha : 0 < a.den) (hb : 0 < b.den)
    (h : Frac.ble a b = true) : a.toRat ≤ b.toRat := by
  have hcross : a.num * b.den ≤ b.num * a.den := of_decide_eq_true h
  rw [Frac.toRat, Frac.toRat,
    div_le_div_iff₀ (by exact_mod_cast ha) (by exact_mod_cast hb)]
  exact_mod_cast hcross

theorem Frac.lt_of_toRat_lt {a b : Frac} (ha : 0 < a.den) (hb : 0 < b.den)
    (h : a.toRat < b.toRat) : Frac.ble b a = false := by
  by_contra hc
  have := Frac.le_toRat_of_ble hb ha (by revert hc; cases Frac.ble b a <;> simp)
  exact absurd h (not_lt.mpr this)

theorem confOfScore_den_pos (k : Nat) : 0 < (confOfScore k).den := by
  rw [confOfScore, Frac.minF]
  by_cases h : Frac.ble (Frac.div (Frac.ofNat k) f40) (Frac.ofNat 1) = true
  · rw [if_pos h]
    show 0 < 1 * f40.num
    decide
  · rw [if_neg h]
    decide

theorem f008_den_pos : 0 < f008.den := by decide

theorem f008_toRat : f008.toRat = (8:ℚ)/100 := by
  rw [f008, Frac.toRat]
  norm_num

theorem mem_of_mem_pydedup {l : List Str} {x : Str} (h : x ∈ pydedup l) : x ∈ l :=
  (pydedup_sublist l).subset h

theorem cleanupBucket_nodup (l : List Str) : (cleanupBucket l).Nodup := pydedup_nodup _

theorem cleanupBucket_nonblank {l : List Str} {x : Str} (h : x ∈ cleanupBucket l) :
    trimStr x ≠ [] := by
  have hx : x ∈ l.filter (fun c => trimStr c ≠ []) := mem_of_mem_pydedup h
  exact of_decide_eq_true (List.mem_filter.mp hx).2

/-- C1: for every registry and every ordered identifier-candidate list, the
resolution loop returns the registry entry of the first candidate (in list
order) that is an exact key of the registry, and `none` if no candidate is a
key; on the registry `{ACME SRL ↦ A, 12345678901 ↦ A}` and the candidates
`[UNKNOWN, 12345678901, ACME SRL]` it returns `A`, matching on the candidate
`12345678901`. -/
theorem C1_resolver_precedence :
    (∀ (α : Type) (companies : List (Str × α)) (cands : List Str),
        resolve_company companies cands = resolveSpec companies cands)
    ∧ resolve_company exampleRegistryC1 exampleCandsC1 = some 1
    ∧ (exampleCandsC1.find? fun c => (lookupD exampleRegistryC1 c).isSome)
        = some (strL ("12345678901")) := by
  refine ⟨fun α companies cands => resolve_company_eq_resolveSpec companies cands, ?_, ?_⟩
  · decide
  · decide

/-- C7: for every input document text, the identifier-candidate list used for
resolution is the first-occurrence deduplication of the extracted candidates
(tax-code/VAT matches before declared-name matches, each in extraction order,
as `raw_identifiers` lists them): it has no duplicates and is an
order-preserving sublist of the extraction order. -/
theorem C7_identifier_dedup (text : Str) :
    unique_identifiers text = firstOccurSpec (raw_identifiers text)
    ∧ (unique_identifiers text).Nodup
    ∧ List.Sublist (unique_identifiers text) (raw_identifiers text) :=
  ⟨pydedup_eq_firstOccurSpec _, pydedup_nodup _, pydedup_sublist _⟩

/-- C8: when no identifier candidate is a registry key, the resolver returns
`none` and the document's analysis result records company name `Unknown` with
status `completed` (no failure or error status). -/
theorem C8_no_match_completed (companies : List (Str × Row)) (docName pdfText : Str)
    (aiAnalysis : Option Str) (hne : pdfText ≠ [])
    (hnm : ∀ c ∈ unique_identifiers pdfText, lookupD companies c = none) :
    match_company companies pdfText = none
    ∧ (analyze_document companies docName pdfText aiAnalysis).company_name = strL ("Unknown")
    ∧ (analyze_document companies docName pdfText aiAnalysis).analysis_status = strL ("completed")
    ∧ (analyze_document companies docName pdfText aiAnalysis).matched_company_data = none := by
  have hm : match_company companies pdfText = none :=
    resolve_company_eq_none companies (unique_identifiers pdfText) hnm
  refine ⟨hm, ?_, ?_, ?_⟩ <;> simp [analyze_document, hne, hm]

/-- Witness for C8 at the no-match scenario of the spec: the single candidate
`ACME FANTASMA SRL` against the empty registry. -/
theorem C8_no_match_completed_witness :
    match_company [] exampleText8 = none
    ∧ (analyze_document [] (strL ("doc.pdf")) exampleText8 none).company_name = strL ("Unknown")
    ∧ (analyze_document [] (strL ("doc.pdf")) exampleText8 none).analysis_status
        = strL ("completed")
    ∧ (analyze_document [] (strL ("doc.pdf")) exampleText8 none).matched_company_data = none :=
  C8_no_match_completed [] (strL ("doc.pdf")) exampleText8 none (by decide) (fun c _ => rfl)

/-- C9: for every text, keyword match position `i` and context half-width `k`,
the section extractor's window is exactly the lines whose index lies in the
inclusive interval `[i - k, i + k]` clamped to the text bounds (no
out-of-range index is ever touched); in particular a match on the first line
of the eight-line example with `k = 5` contributes exactly lines 0-5. -/
theorem C9_window_clamping :
    (∀ (lines : List Str) (i k : Nat),
        contextSlice lines i k (k + 1) = claimWindowLines lines i k k)
    ∧ extract_sections_by_keywords exampleText9 [strL ("alpha")] 5
        = strL ("alpha keyword here\nl1\nl2\nl3\nl4\nl5")
    ∧ contextSlice (splitNl exampleText9) 0 5 6 = (splitNl exampleText9).take 6 := by
  refine ⟨fun lines i k => contextSlice_eq_claimWindow lines i k k, by decide, by decide⟩

/-- C10: for every input text, the `other_certifications` bucket of the
certification extractor is the empty list: no extraction pass appends to it
and the final cleanup maps the empty list to itself. -/
theorem C10_other_certifications_empty (text : Str) :
    (extract_certifications_direct text).other_certifications = [] := rfl

/-- Counterexample to C4 as stated: on `"a @ b"` the normalizer is not
idempotent, because deleting the non-whitelisted `@` after whitespace
collapsing leaves two adjacent spaces that only a second pass collapses. -/
theorem C4_normalize_counterexample :
    normalize_text (normalize_text (strL ("a @ b"))) ≠ normalize_text (strL ("a @ b")) := by
  decide

/-- C4 (amended): the normalizer reaches a fixed point after two
applications: a third application is a no-op (and on inputs consisting only
of whitelisted characters a single application already is, this being the
general form of the failure shown by the counterexample). -/
theorem C4_normalize_amended (s : Str) :
    normalize_text (normalize_text (normalize_text s)) = normalize_text (normalize_text s) := by
  have h1 : ∀ c ∈ normalize_text s, keepChar c = true := allKeep_normalize s
  have h2 : normalize_text (normalize_text s) = collapse_ws (normalize_text s) :=
    normalize_of_allKeep h1
  rw [h2, normalize_of_allKeep (allKeep_collapse h1), collapse_ws_idem]

/-- Counterexample to C3 as stated: with the trigger on line 0 of an
eleven-line text, the SOA pass searches only lines 0-9 (the half-open slice
`[i-3, i+10)`), not the claimed inclusive window `[i-3, i+10]`: the two
windows differ, and the attestation number sitting on line 10, which the
pattern does find inside the claimed window, is absent from the bucket. -/
theorem C3_window_counterexample :
    contextSlice (splitNl exampleText3) 0 3 10 ≠ claimWindowLines (splitNl exampleText3) 0 3 10
    ∧ (extract_certifications_direct exampleText3).soa_attestations = []
    ∧ reFindall (labeledDS ("numero attestazione"))
        (joinNl (claimWindowLines (splitNl exampleText3) 0 3 10)) = [strL ("123/456")] := by
  refine ⟨by decide, by decide, by decide⟩

/-- C3 (amended): each trigger hit at line `i` opens exactly the inclusive
window `[i-3, i+9]` for SOA, `[i-2, i+7]` for quality/environmental/safety,
`[i-1, i+5]` for environmental registrations and `[i-1, i+3]` for technical
authorizations (the Python slices `[i-3 : i+10]` etc. exclude the upper
bound), clamped to the text bounds. -/
theorem C3_windows_amended (lines : List Str) (i : Nat) :
    contextSlice lines i 3 10 = claimWindowLines lines i 3 9
    ∧ contextSlice lines i 2 8 = claimWindowLines lines i 2 7
    ∧ contextSlice lines i 1 6 = claimWindowLines lines i 1 5
    ∧ contextSlice lines i 1 4 = claimWindowLines lines i 1 3 :=
  ⟨contextSlice_eq_claimWindow lines i 3 9, contextSlice_eq_claimWindow lines i 2 7,
   contextSlice_eq_claimWindow lines i 1 5, contextSlice_eq_claimWindow lines i 1 3⟩

/-- Counterexample to C6 as stated: the text containing the ISO 9001 line
twice does not put `ABC123` into the quality bucket at all (the
certificate-number class admits only `C`, `R`, digits and hyphens, so `ABC123`
is never captured), hence not exactly once. -/
theorem C6_cert_dedup_counterexample :
    strL ("ABC123") ∉ (extract_certifications_direct exampleText6).quality_certifications := by
  decide

/-- C6 (amended): every bucket of the extractor's output is the
blank-filtered, first-occurrence deduplication of the raw pass output (so no
bucket contains a duplicate or a blank entry); for the doubled ISO 9001 line
the quality bucket is exactly `["2015"]` (the year capture, deduplicated
across the two overlapping windows; `ABC123` is not captured at all). -/
theorem C6_cert_dedup_amended :
    (∀ text, bucketsOf (extract_certifications_direct text)
        = (bucketsOf (extract_certifications_raw text)).map
            (fun l => firstOccurSpec (l.filter (fun c => trimStr c ≠ []))))
    ∧ (∀ text, ∀ b ∈ bucketsOf (extract_certifications_direct text),
        b.Nodup ∧ ∀ x ∈ b, trimStr x ≠ [])
    ∧ (extract_certifications_direct exampleText6).quality_certifications = [strL ("2015")] := by
  refine ⟨?_, ?_, by decide⟩
  · intro text
    have hcb : ∀ l, cleanupBucket l = firstOccurSpec (l.filter (fun c => trimStr c ≠ [])) :=
      fun l => pydedup_eq_firstOccurSpec _
    simp only [bucketsOf, extract_certifications_direct, List.map, hcb]
  · intro text b hb
    simp only [bucketsOf, extract_certifications_direct, List.mem_cons,
      List.not_mem_nil, or_false] at hb
    rcases hb with rfl | rfl | rfl | rfl | rfl | rfl | rfl <;>
      exact ⟨cleanupBucket_nodup _, fun x hx => cleanupBucket_nonblank hx⟩

/-- Counterexample to C2 as stated: on the end-to-end scenario text the
environmental bucket is not `["14001", "X9"]` (the ISO pattern captures the
year `2015`, and `X9` is rejected by the certificate-number class, which has
no `X`). -/
theorem C2_end_to_end_counterexample :
    (extract_certifications_direct exampleText2).environmental_certifications
      ≠ [strL ("14001"), strL ("X9")] := by
  decide

/-- C2 (amended): on the end-to-end scenario the resolver returns the
registry record (matching the tax-code candidate), the environmental bucket
is exactly `["2015"]` (the year captured by the ISO 14001 pattern; `X9` is
not captured because the certificate-number class has no `X`), and the
classifier outputs the single category `environmental` with confidence
`11/40 > 0`. -/
theorem C2_end_to_end_amended :
    match_company exampleRegistry2 exampleText2 = some exampleRow2
    ∧ (extract_certifications_direct exampleText2).environmental_certifications = [strL ("2015")]
    ∧ (analyze_content_direct exampleText2 exampleTaxonomy2).technologies.map
        (fun e => (e.category, e.confidence)) = [(strL ("environmental"), Frac.mk 11 40)]
    ∧ (0:ℚ) < (analyze_content_direct exampleText2 exampleTaxonomy2).overall_confidence.toRat := by
  refine ⟨by decide, by decide, by decide, ?_⟩
  have h : (analyze_content_direct exampleText2 exampleTaxonomy2).overall_confidence
      = Frac.mk 11 40 := by decide
  rw [h, Frac.toRat]
  norm_num

/-- C5: for every content and taxonomy (with distinct category names, as
Python dict keys are), every category entry in the classifier's output has
normalized confidence at least 0.08; a category whose normalized confidence
`min(score / 40, 1)` is strictly below 0.08 never appears, even with nonzero
subcategory hits; and the output is the score-descending sorted list of
qualifying categories. -/
theorem C5_classifier_threshold (content : Str) (taxonomy : List (Str × List Str))
    (hk : (taxonomy.map Prod.fst).Nodup) :
    (∀ e ∈ (analyze_content_direct content taxonomy).technologies,
        (8:ℚ)/100 ≤ e.confidence.toRat)
    ∧ (∀ cat subs, (cat, subs) ∈ taxonomy →
        (confOfScore (categoryAccum (lowerStr content) cat subs).score).toRat < (8:ℚ)/100 →
        cat ∉ (analyze_content_direct content taxonomy).technologies.map TechEntry.category)
    ∧ ((sorted_categories (lowerStr content) taxonomy).filter
        (fun p => Frac.ble f008 p.2.confidence)).Pairwise (fun a b => b.2.score ≤ a.2.score)
    ∧ (analyze_content_direct content taxonomy).technologies
        = ((sorted_categories (lowerStr content) taxonomy).filter
            (fun p => Frac.ble f008 p.2.confidence)).map
            (fun p => ⟨p.1, p.2.confidence, p.2.subcategories.map SubcatMatch.name,
              p.2.evidence.take 3, p.2.keywords.take 5⟩) := by
  have hconf : ∀ p ∈ sorted_categories (lowerStr content) taxonomy,
      p.2.confidence = confOfScore p.2.score := by
    intro p hp
    obtain ⟨pc, pd⟩ := p
    exact (category_scores_mem (mem_sortScoreDesc hp)).1
  have htech : (analyze_content_direct content taxonomy).technologies
      = technologiesOf (lowerStr content) taxonomy := rfl
  refine ⟨?_, ?_, ?_, rfl⟩
  · intro e he
    rw [htech, technologiesOf] at he
    rcases List.mem_map.mp he with ⟨p, hp, rfl⟩
    rcases List.mem_filter.mp hp with ⟨hmem, hble⟩
    have hpc : p.2.confidence = confOfScore p.2.score := hconf p hmem
    have hden : 0 < p.2.confidence.den := by
      rw [hpc]; exact confOfScore_den_pos _
    have hle := Frac.le_toRat_of_ble f008_den_pos hden hble
    rw [← f008_toRat]
    exact hle
  · intro cat subs hmem hlt hcontra
    rcases List.mem_map.mp hcontra with ⟨e, he, hcat⟩
    rw [htech, technologiesOf] at he
    rcases List.mem_map.mp he with ⟨p, hp, rfl⟩
    rcases List.mem_filter.mp hp with ⟨hsorted, hble⟩
    obtain ⟨pc, pd⟩ := p
    have hpc : pc = cat := hcat
    subst hpc
    obtain ⟨hc1, subs', hsub', hscore⟩ := category_scores_mem (mem_sortScoreDesc hsorted)
    have hsubs : subs' = subs := keyNodup_eq hk hsub' hmem
    subst hsubs
    have hble2 : Frac.ble f008 pd.confidence = false := by
      apply Frac.lt_of_toRat_lt
      · rw [hc1, hscore]
        exact confOfScore_den_pos _
      · exact f008_den_pos
      · rw [hc1, hscore, f008_toRat]
        exact hlt
    rw [hble2] at hble
    cases hble
  · exact List.Pairwise.sublist (List.filter_sublist _) (pairwise_sortScoreDesc _)

/-- Witness for C5: on content `14001` against a two-category taxonomy, the
category `environmental` scores 3 (a single key-term hit), its confidence
3/40 = 0.075 is below the threshold, and it does not appear in the output. -/
theorem C5_classifier_threshold_witness :
    strL ("environmental")
      ∉ (analyze_content_direct (strL ("14001")) exampleTaxonomy5).technologies.map
          TechEntry.category := by
  have h := (C5_classifier_threshold (strL ("14001")) exampleTaxonomy5 (by decide)).2.1
  refine h (strL ("environmental")) [strL ("iso 14001")] (by decide) ?_
  have hc : confOfScore (categoryAccum (lowerStr (strL ("14001"))) (strL ("environmental"))
      [strL ("iso 14001")]).score = Frac.mk 3 40 := by decide
  rw [hc, Frac.toRat]
  norm_num
